import Mathlib

/-!
A shallow embedding of the map fusion and estimation engine of
`src/fiducial_slam2/src/map.cpp`: the observation and fiducial data model,
the weighted fusion primitives (`updateTransform`, `updateVarianceAlexey`,
`updateVarianceDavid`), the bootstrap state machine (`findClosestObs`,
`Map::autoInit`, `Map::update`), the per-frame relational update
(`Map::updateMap`), the observer pose estimator (`Map::updatePose`), and the
text persistence layer (`Map::saveMap` / `Map::loadMap`).

Modelling conventions, applied throughout:
* C++ `double` values are modelled as exact rationals (`ℚ`).  Note that in
  `ℚ` the Lean convention `x / 0 = 0` applies; no settled statement below
  depends on the difference between that convention and IEEE `inf`
  arithmetic (where it could matter it is pointed out next to the use).
* The irrational primitives of the source (`sqrt` inside
  `Quaternion::normalize`, the trigonometric branch of `Quaternion::slerp`,
  and the matrix `getRPY` / quaternion `setRPY` conversions) cannot be
  expressed over `ℚ`.  They are kept as explicit parameters, bundled in
  `RealOps`; every theorem either does not depend on them or assumes only
  facts that are true of the real functions (such as `sqrt 1 = 1`).
* `tf2::Transform` stores a rotation matrix; rigid transforms are modelled
  here with the equivalent unit-quaternion representation (`Tf`), with
  composition `Tf.mul` mirroring `basis * basis` / `basis * v + origin`.
* `std::map<int, ...>` is modelled as a key-sorted association list; the
  `links` map (whose values are always the constant `1`) is modelled as its
  sorted list of keys.
* `vector::operator[]` out-of-range accesses (undefined behaviour in the
  source) are modelled by an `Option`-valued step: `none` marks the access.
-/

namespace FidSlam

/-- 3-vector of rationals, modelling `tf2::Vector3` (doubles as exact `ℚ`). -/
structure V3 where
  x : ℚ
  y : ℚ
  z : ℚ
deriving DecidableEq

/-- Componentwise vector sum, `tf2::Vector3 operator+`. -/
def vadd (a b : V3) : V3 := ⟨a.x + b.x, a.y + b.y, a.z + b.z⟩

/-- Scalar times vector, `tf2Scalar * tf2::Vector3`. -/
def vsmul (c : ℚ) (a : V3) : V3 := ⟨c * a.x, c * a.y, c * a.z⟩

/-- Vector divided by scalar, `tf2::Vector3 operator/`. -/
def vdiv (a : V3) (c : ℚ) : V3 := ⟨a.x / c, a.y / c, a.z / c⟩

/-- `tf2::Vector3::length2`: squared euclidean norm (`dot` with itself). -/
def vlen2 (a : V3) : ℚ := a.x * a.x + a.y * a.y + a.z * a.z

/-- Quaternion with rational components, modelling `tf2::Quaternion`
(component order x, y, z, w as in tf2). -/
structure Quat where
  x : ℚ
  y : ℚ
  z : ℚ
  w : ℚ
deriving DecidableEq

/-- Hamilton product, `tf2::Quaternion operator*`, with tf2's component
ordering. -/
def qmul (a b : Quat) : Quat :=
  { x := a.w * b.x + a.x * b.w + a.y * b.z - a.z * b.y
    y := a.w * b.y + a.y * b.w + a.z * b.x - a.x * b.z
    z := a.w * b.z + a.z * b.w + a.x * b.y - a.y * b.x
    w := a.w * b.w - a.x * b.x - a.y * b.y - a.z * b.z }

/-- `tf2::Quaternion::inverse`: the conjugate (tf2 assumes unit length and
does not divide by the norm). -/
def qconj (a : Quat) : Quat := ⟨-a.x, -a.y, -a.z, a.w⟩

/-- `tf2::Quaternion::dot`. -/
def qdot (a b : Quat) : ℚ := a.x * b.x + a.y * b.y + a.z * b.z + a.w * b.w

/-- `tf2::Quaternion::length2 = dot(*this)`. -/
def qlen2 (a : Quat) : ℚ := qdot a a

/-- Quaternion scaled by a rational. -/
def qscale (c : ℚ) (a : Quat) : Quat := ⟨c * a.x, c * a.y, c * a.z, c * a.w⟩

/-- `tf2::quatRotate(q, v)`: computes `q * (v, 0) * q.inverse()` and takes the
vector part.  Agrees with the rotation-matrix action for unit quaternions. -/
def qrotate (q : Quat) (v : V3) : V3 :=
  let p : Quat := ⟨v.x, v.y, v.z, 0⟩
  let r := qmul (qmul q p) (qconj q)
  ⟨r.x, r.y, r.z⟩

/-- The irrational primitives the source takes from libm / tf2, kept
parametric because they are not expressible over `ℚ`:
`sqrtFn` backs `Quaternion::normalize` (division by `sqrt(length2)`);
`slerpRest` is `Quaternion::slerp`'s trigonometric branch, taken when the
shortest-path angle between the two quaternions is nonzero;
`getRPY` / `setRPY` are the fixed-axis roll/pitch/yaw extraction from a
rotation and its inverse, used only by the persistence layer. -/
structure RealOps where
  sqrtFn : ℚ → ℚ
  slerpRest : Quat → Quat → ℚ → Quat
  getRPY : Quat → ℚ × ℚ × ℚ
  setRPY : ℚ × ℚ × ℚ → Quat

/-- `tf2::Quaternion::slerp(q2, t)`.  tf2 computes
`theta = angleShortestPath(q2) / 2` and returns `*this` unchanged when
`theta == 0`; that happens exactly when `|dot(q1, q2)| = sqrt(length2 q1 *
length2 q2)`, i.e. when `dot^2 = length2 * length2`, which is decidable over
`ℚ`.  The nonzero-angle branch evaluates sines and is kept parametric. -/
def qslerp (R : RealOps) (q1 q2 : Quat) (t : ℚ) : Quat :=
  if qdot q1 q2 * qdot q1 q2 = qlen2 q1 * qlen2 q2 then q1
  else R.slerpRest q1 q2 t

/-- `tf2::Quaternion::normalize`: divide by `sqrt(length2)`. -/
def qnormalize (R : RealOps) (q : Quat) : Quat :=
  qscale (1 / R.sqrtFn (qlen2 q)) q

/-- Rigid transform, modelling `tf2::Transform` with the rotation held as a
quaternion (the source's `getRotation`/`setRotation` view of its basis). -/
structure Tf where
  rot : Quat
  origin : V3
deriving DecidableEq

/-- `tf2::Transform operator*`: compose two rigid transforms
(`basis1 * basis2`, `basis1 * origin2 + origin1`). -/
def Tf.mul (t1 t2 : Tf) : Tf :=
  { rot := qmul t1.rot t2.rot
    origin := vadd (qrotate t1.rot t2.origin) t1.origin }

/-- `updateVarianceAlexey` from map.cpp: harmonic combination with a `1e-6`
floor, `max(1 / (1/var1 + 1/var2), 1e-6)`. -/
def updateVarianceAlexey (var1 var2 : ℚ) : ℚ :=
  max (1 / (1 / var1 + 1 / var2)) (1 / 1000000)

/-- `updateVarianceDavid` from map.cpp.  Its body starts with
`if (1) return updateVarianceAlexey(var1, var2);`, so the overlap-aware
formula below that line is dead code and the function always returns the
harmonic combination of the two variances; the mean arguments are kept for
signature fidelity. -/
def updateVarianceDavid (_newMean _mean1 : V3) (var1 : ℚ) (_mean2 : V3)
    (var2 : ℚ) : ℚ :=
  updateVarianceAlexey var1 var2

/-- `updateTransform` from map.cpp: blend `t1` (variance `var1`) with `t2`
(variance `var2`); the origin is the variance-weighted blend
`(var1 * o2 + var2 * o1) / (var1 + var2)`, the rotation is
`q1.slerp(q2, var1 / (var1 + var2)).normalize()`. -/
def updateTransform (R : RealOps) (t1 : Tf) (var1 : ℚ) (t2 : Tf)
    (var2 : ℚ) : Tf :=
  { origin := vdiv (vadd (vsmul var1 t2.origin) (vsmul var2 t1.origin))
      (var1 + var2)
    rot := qnormalize R (qslerp R t1.rot t2.rot (var1 / (var1 + var2))) }

/-- An observation, modelling `Observation` from map.cpp.  The constructor's
aruco-to-ROS convention rotation (a 90 degree twist, with irrational
quaternion components) happens upstream of everything claimed here, so
observations are taken as already carrying both mutually inverse transforms
`T_fidCam` / `T_camFid`, exactly as the rest of map.cpp consumes them. -/
structure Observation where
  fid : Int
  T_fidCam : Tf
  T_camFid : Tf
  imageError : ℚ
  objectError : ℚ
deriving DecidableEq

/-- A map node, modelling `Fiducial` from map.cpp.  `links` is
`std::map<int, int>` in the source, but every write puts the value `1`, so it
is modelled as its sorted list of keys.  The publish throttling timestamp
`lastPublished` plays no part in the estimation logic and is omitted. -/
structure Fiducial where
  id : Int
  pose : Tf
  variance : ℚ
  numObs : Int
  links : List Int
deriving DecidableEq

/-- The `Fiducial(int, tf2::Transform&, double)` constructor:
`numObs = 0`, empty links. -/
def Fiducial.make (id : Int) (pose : Tf) (variance : ℚ) : Fiducial :=
  { id := id, pose := pose, variance := variance, numObs := 0, links := [] }

/-- The `Fiducial(int, tf2::Quaternion&, tf2::Vector3&, double)`
constructor used by `loadMap`. -/
def Fiducial.ofQuat (id : Int) (q : Quat) (tvec : V3) (variance : ℚ) :
    Fiducial :=
  { id := id, pose := ⟨q, tvec⟩, variance := variance, numObs := 0
    links := [] }

/-- `Fiducial::update`: fuse in a new pose estimate.  The pose is blended by
`updateTransform` using the current variance and the incoming one, `numObs`
is incremented, and the variance is recomputed by `updateVarianceDavid`
(which reduces to the harmonic combination) from the pre-update variance and
the incoming variance.  The commented-out anchor-preservation block in the
source is dead and not modelled. -/
def Fiducial.update (R : RealOps) (f : Fiducial) (newPose : Tf)
    (newVariance : ℚ) : Fiducial :=
  let mean1 := f.pose.origin
  let pose2 := updateTransform R f.pose f.variance newPose newVariance
  let mean2 := newPose.origin
  let newMean := pose2.origin
  { f with
    pose := pose2
    numObs := f.numObs + 1
    variance := updateVarianceDavid newMean mean1 f.variance mean2
      newVariance }

/-- The engine's landmark collection `std::map<int, Fiducial>`, modelled as
an association list sorted by key (std::map key order, needed by `saveMap`'s
iteration). -/
abbrev Fids := List (Int × Fiducial)

/-- `fiducials.find(k)`: lookup by key (keys are unique, so first-match
lookup agrees with the ordered-map lookup). -/
def fidsFind : Fids → Int → Option Fiducial
  | [], _ => none
  | (k', f') :: rest, k => if k = k' then some f' else fidsFind rest k

/-- `fiducials[k] = f` (insert or overwrite), keeping keys sorted as
`std::map` does. -/
def fidsSet : Fids → Int → Fiducial → Fids
  | [], k, f => [(k, f)]
  | (k', f') :: rest, k, f =>
    if k < k' then (k, f) :: (k', f') :: rest
    else if k = k' then (k, f) :: rest
    else (k', f') :: fidsSet rest k f

/-- `links[k] = 1` on the key-list model of the `links` map: sorted insert,
no duplicate. -/
def linkAdd : List Int → Int → List Int
  | [], k => [k]
  | a :: rest, k =>
    if k < a then k :: a :: rest
    else if k = a then a :: rest
    else a :: linkAdd rest k

/-- `findClosestObs` from map.cpp, verbatim including its loop body: the body
reads `obs[0]` (not `obs[i]`), so `d` is the same value every iteration.
`smallestDist` starts at `-1`, `closestIdx` at `-1`; the loop runs
`obs.size()` times. -/
def findClosestObs (obs : List Observation) : Int :=
  match obs with
  | [] => -1
  | o0 :: _ =>
    let step := fun (st : ℚ × Int) (i : Nat) =>
      let d := vlen2 o0.T_camFid.origin
      if st.1 < 0 ∨ d < st.1 then (d, (i : Int)) else st
    ((List.range obs.length).foldl step (-1, -1)).2

/-- The engine state, modelling class `Map`'s estimation-relevant members:
`frameNum`, `isInitializingMap`, the fiducial collection, and `autoInit`'s
`static int originFid` (function-static in the source; represented as an
engine field, initialized to `-1`). -/
structure Map where
  frameNum : Int
  isInitializingMap : Bool
  originFid : Int
  fiducials : Fids
deriving DecidableEq

/-- The engine state as `Map::Map` leaves it before any frame (with no
initial map file): `frameNum = 0`, not initializing, `originFid = -1`,
no fiducials. -/
def initMap : Map := ⟨0, false, -1, []⟩

/-- `obs[i]` for a C++ `int` index on a `std::vector`: `none` models the
out-of-range (undefined-behaviour) access. -/
def listGetI (obs : List Observation) (i : Int) : Option Observation :=
  if h : 0 ≤ i ∧ i.toNat < obs.length then some (obs.get ⟨i.toNat, h.2⟩)
  else none

/-- `Map::autoInit` from map.cpp, modelled faithfully:

* empty map: `originFid = findClosestObs(obs)` (an index into `obs`!); a
  `-1` result only logs a warning, execution then unconditionally binds
  `obs[originFid]` — out of range when `originFid = -1`, modelled as `none`
  — and inserts `Fiducial(o.fid, o.T_fidCam, o.objectError)` keyed by
  `o.fid`;
* non-empty map: the loop body reads `obs[0]` and breaks after one
  iteration; if `obs[0].fid == originFid` it fuses
  `fiducials[originFid]` with `(obs[0].T_fidCam, obs[0].objectError)`
  (`operator[]` default-inserts when the key is absent, modelled by the
  `dflt` parameter standing for map.h's `Fiducial()` default constructor,
  which is not part of the sources here);
* then, if `frameNum > 10`: clear `isInitializingMap`, and run a loop whose
  body again reads `obs[0]` and, when `obs[0].fid == originFid`, sets
  `fiducials[originFid].variance = 0`; the body executes `obs.size()`
  times. -/
def autoInit (R : RealOps) (dflt : Fiducial) (st : Map)
    (obs : List Observation) : Option Map :=
  let st1? : Option Map :=
    if st.fiducials.length = 0 then
      let originFid := findClosestObs obs
      match listGetI obs originFid with
      | none => none
      | some o =>
        some { st with
               originFid := originFid
               fiducials := fidsSet st.fiducials o.fid
                 (Fiducial.make o.fid o.T_fidCam o.objectError) }
    else
      match obs with
      | [] => some st
      | o :: _ =>
        if o.fid = st.originFid then
          let f := (fidsFind st.fiducials st.originFid).getD dflt
          some { st with fiducials := fidsSet st.fiducials st.originFid
                           (Fiducial.update R f o.T_fidCam o.objectError) }
        else some st
  match st1? with
  | none => none
  | some st1 =>
    if st1.frameNum > 10 then
      let st2 := { st1 with isInitializingMap := false }
      some ((List.range obs.length).foldl (fun s _ =>
        match obs with
        | [] => s
        | o :: _ =>
          if o.fid = s.originFid then
            let f := (fidsFind s.fiducials s.originFid).getD dflt
            { s with fiducials := fidsSet s.fiducials s.originFid
                       { f with variance := 0 } }
          else s) st2)
    else some st1

/-- One ordered pair `(o1, o2)` of `Map::updateMap`'s double loop:
skip when the fids coincide; skip (with a warning) when `o1`'s fid is not in
the map; skip when `o2`'s fid is mapped with variance `0`; otherwise compute
`T_fid1Fid2 = o1.T_fidCam * o2.T_camFid`,
`T_mapFid2 = fiducials[o1.fid].pose * T_fid1Fid2` and
`variance = o1.objectError + o2.objectError +
max(fiducials[o1.fid].variance, 10e-5)` (note the source constant is
`10e-5 = 1e-4`), then insert `Fiducial(o2.fid, T_mapFid2, variance)` when
`o2.fid` is unmapped (`saveMap` is triggered there, a side effect with no
bearing on the collection), and otherwise fuse via `Fiducial::update`,
add `o1.fid` to `fiducials[o2.fid].links`, increment `numObs` once more, and
add `o2.fid` to `fiducials[o1.fid].links`.  Links are touched only in the
fuse branch.  `dflt` again models `operator[]`'s default insertion. -/
def updateMapPair (R : RealOps) (dflt : Fiducial) (st : Fids)
    (o1 o2 : Observation) : Fids :=
  if o1.fid = o2.fid then st
  else
    match fidsFind st o1.fid with
    | none => st
    | some f1 =>
      let o2entry := fidsFind st o2.fid
      if o2entry.map Fiducial.variance = some 0 then st
      else
        let T_fid1Fid2 := Tf.mul o1.T_fidCam o2.T_camFid
        let T_mapFid2 := Tf.mul f1.pose T_fid1Fid2
        let variance := o1.objectError + o2.objectError +
          max f1.variance (10 / 100000)
        match o2entry with
        | none => fidsSet st o2.fid (Fiducial.make o2.fid T_mapFid2 variance)
        | some f2 =>
          let f3 := Fiducial.update R f2 T_mapFid2 variance
          let f4 := { f3 with
                      links := linkAdd f3.links o1.fid
                      numObs := f3.numObs + 1 }
          let st1 := fidsSet st o2.fid f4
          let g1 := (fidsFind st1 o1.fid).getD dflt
          fidsSet st1 o1.fid { g1 with links := linkAdd g1.links o2.fid }

/-- The fiducial value the fuse branch of `updateMapPair` stores at
`o2.fid`: `Fiducial::update` with the candidate pose
`fiducials[o1.fid].pose * (o1.T_fidCam * o2.T_camFid)` and the candidate
variance, then `links[o1.fid] = 1` and the branch's extra `numObs++`.
(Named so the fuse branch can be reasoned about; it is definitionally the
value `updateMapPair` computes.) -/
def fuseTarget (R : RealOps) (f1 f2 : Fiducial) (o1 o2 : Observation) :
    Fiducial :=
  let f3 := Fiducial.update R f2
    (Tf.mul f1.pose (Tf.mul o1.T_fidCam o2.T_camFid))
    (o1.objectError + o2.objectError + max f1.variance (10 / 100000))
  { f3 with
    links := linkAdd f3.links o1.fid
    numObs := f3.numObs + 1 }

/-- `Map::updateMap`: the double loop over all ordered pairs of the frame's
observations, in input order, each pair acting on the current collection
(mutations are visible to later pairs). -/
def updateMap (R : RealOps) (dflt : Fiducial) (st : Fids)
    (obs : List Observation) : Fids :=
  obs.foldl (fun s o1 => obs.foldl (fun s' o2 => updateMapPair R dflt s' o1 o2) s) st

/-- One observation of `Map::updatePose`'s loop acting on the running
`(pose, variance)` accumulator: observations of unmapped fids are skipped;
for a mapped fid the candidate is `p = fiducials[o.fid].pose * o.T_fidCam`
with variance `v = fiducials[o.fid].variance + o.objectError`; the code then
tests `variance == 0.0` to decide between seeding the accumulator with
`(p, v)` and fusing `(p, v)` into it (`updateTransform` +
`updateVarianceAlexey`). -/
def poseStep (R : RealOps) (fids : Fids) (acc : Tf × ℚ) (o : Observation) :
    Tf × ℚ :=
  match fidsFind fids o.fid with
  | none => acc
  | some f =>
    let p := Tf.mul f.pose o.T_fidCam
    let v := f.variance + o.objectError
    if acc.2 = 0 then (p, v)
    else (updateTransform R acc.1 acc.2 p v, updateVarianceAlexey acc.2 v)

/-- `Map::updatePose`: returns the frame's broadcast observer estimate.
On an empty observation set the function returns early and nothing is
broadcast (`none`).  Otherwise the accumulator starts from the local
variables `tf2::Transform pose;` (default-constructed, i.e. UNINITIALIZED in
tf2 — represented by the explicit `uninit` parameter) and `variance = 0.0`,
the loop above runs over all observations, and the resulting `(pose,
variance)` is broadcast unconditionally via `sendTransform` — even when no
observation matched the map. -/
def updatePose (R : RealOps) (uninit : Tf) (fids : Fids)
    (obs : List Observation) : Option (Tf × ℚ) :=
  if obs.length = 0 then none
  else some (obs.foldl (poseStep R fids) (uninit, 0))

/-- `Map::update`, the per-frame entry point: `frameNum++`; if the frame has
observations and the map is empty, enter initialization; then dispatch to
`autoInit` (while initializing) or to `updateMap` (tracking).  `updatePose`
(modelled separately above, it does not mutate the collection) and the
publishing calls happen in the tracking branch of the source. -/
def Map.update (R : RealOps) (dflt : Fiducial) (st : Map)
    (obs : List Observation) : Option Map :=
  let st1 : Map := { st with frameNum := st.frameNum + 1 }
  let st2 : Map :=
    if 0 < obs.length ∧ st1.fiducials.length = 0 then
      { st1 with isInitializingMap := true }
    else st1
  if st2.isInitializingMap then autoInit R dflt st2 obs
  else some { st2 with fiducials := updateMap R dflt st2.fiducials obs }

/-- A sequence of frames fed through `Map::update`, propagating the
out-of-range marker. -/
def runFrames (R : RealOps) (dflt : Fiducial) (st : Map)
    (frames : List (List Observation)) : Option Map :=
  frames.foldl (fun s? obs => s?.bind (fun s => Map.update R dflt s obs))
    (some st)

/-- The exact rational value of the C `double` constant `M_PI`
(`0x1.921FB54442D18p+1`). -/
def mpi : ℚ := 884279719003555 / 281474976710656

/-- `deg2rad` from map.cpp: `deg * M_PI / 180`. -/
def deg2rad (deg : ℚ) : ℚ := deg * mpi / 180

/-- `rad2deg` from map.cpp: `rad * 180 / M_PI`. -/
def rad2deg (rad : ℚ) : ℚ := rad * 180 / mpi

/-- `printf`'s `%lf` conversion: the printed value carries six decimal
places (rounding at the seventh; the half-ulp tie direction of the binary
formatting never matters below because round-trip statements assume the
field is exactly representable at six decimals). -/
def fmt6 (x : ℚ) : ℚ := ((Rat.floor (x * 1000000 + 1 / 2) : ℚ)) / 1000000

/-- One line of the persisted map file, as `Map::saveMap` prints it:
`id tx ty tz roll_deg pitch_deg yaw_deg variance numObs link...`, the nine
fixed fields followed by the whitespace-separated link list (possibly
empty).  `%d` fields are exact; `%lf` fields go through `fmt6`. -/
structure SavedRec where
  id : Int
  tx : ℚ
  ty : ℚ
  tz : ℚ
  rx : ℚ
  ry : ℚ
  rz : ℚ
  var : ℚ
  numObs : Int
  links : List Int
deriving DecidableEq

/-- The record `Map::saveMap` writes for one fiducial: translation
components, the roll/pitch/yaw of the pose (extracted by `getRPY` and
converted `rad2deg`), and the variance all through `%lf` (`fmt6`); id,
`numObs` and the link keys (iterated in key order) exact through `%d`. -/
def saveRec (R : RealOps) (f : Fiducial) : SavedRec :=
  let rpy := R.getRPY f.pose.rot
  { id := f.id
    tx := fmt6 f.pose.origin.x, ty := fmt6 f.pose.origin.y
    tz := fmt6 f.pose.origin.z
    rx := fmt6 (rad2deg rpy.1), ry := fmt6 (rad2deg rpy.2.1)
    rz := fmt6 (rad2deg rpy.2.2)
    var := fmt6 f.variance, numObs := f.numObs, links := f.links }

/-- `Map::saveMap`: one record per fiducial, in the collection's key
order. -/
def saveMap (R : RealOps) (fids : Fids) : List SavedRec :=
  fids.map (fun kf => saveRec R kf.2)

/-- One line of `Map::loadMap`.  The source accepts a line only when
`sscanf(linebuf, "%d %lf %lf %lf %lf %lf %lf %lf %d %[^\t\n]s", ...)`
returns `10`.  On a line written by `saveMap` the nine fixed fields always
match; the tenth conversion `%[^\t\n]` is preceded by a whitespace directive
that consumes the blank *and the trailing newline*, so when the link list is
empty nothing is left for `%[^\t\n]` to match, `sscanf` returns `9`, and the
line is silently skipped (`none`).  With a non-empty link list the remainder
of the line (the link ids) matches, and the fiducial is rebuilt via
`setRPY(deg2rad ...)` and `Fiducial(id, q, tvec, var)`, `numObs` is
restored, and each link token is inserted with `links[stoi(s)] = 1`. -/
def loadRec (R : RealOps) (r : SavedRec) : Option Fiducial :=
  if r.links = [] then none
  else
    let q := R.setRPY (deg2rad r.rx, deg2rad r.ry, deg2rad r.rz)
    let f := Fiducial.ofQuat r.id q ⟨r.tx, r.ty, r.tz⟩ r.var
    some { f with numObs := r.numObs, links := r.links.foldl linkAdd [] }

/-- `Map::loadMap`: fold the accepted lines into the collection with
`fiducials[id] = f`. -/
def loadMap (R : RealOps) (recs : List SavedRec) (fids0 : Fids) : Fids :=
  recs.foldl (fun m r =>
    match loadRec R r with
    | none => m
    | some f => fidsSet m r.id f) fids0

/-- The spec's description of the observer-pose candidate list: one
candidate `(landmark.pose ∘ o.cameraToLandmark, landmark.variance +
o.objectError)` per observation of a mapped landmark, in observation
order. -/
def poseCandidates (fids : Fids) (obs : List Observation) : List (Tf × ℚ) :=
  obs.filterMap (fun o =>
    (fidsFind fids o.fid).map (fun f =>
      (Tf.mul f.pose o.T_fidCam, f.variance + o.objectError)))

/-- One fusion step of the spec's sequential pairwise accumulation: weighted
pose fusion plus harmonic variance combination. -/
def fuseStep (R : RealOps) (acc c : Tf × ℚ) : Tf × ℚ :=
  (updateTransform R acc.1 acc.2 c.1 c.2, updateVarianceAlexey acc.2 c.2)

/-- Modelled from the spec (section 4.3(b)): sequential pairwise fusion over
the candidate list, the running `(pose, variance)` accumulator initialized
from the first candidate and every later candidate fused into it; no
estimate when there is no candidate.  This is the spec-side definition used
to compare `Map::updatePose` against the specified accumulation. -/
def specSeqFusion (R : RealOps) : List (Tf × ℚ) → Option (Tf × ℚ)
  | [] => none
  | c :: rest => some (rest.foldl (fuseStep R) c)

/-- The identity quaternion. -/
def idQuat : Quat := ⟨0, 0, 0, 1⟩

/-- The identity rigid transform. -/
def idTf : Tf := ⟨idQuat, ⟨0, 0, 0⟩⟩

/-- A concrete interpretation of the parametric irrational primitives, used
only to instantiate closed statements whose truth does not depend on the
interpretation (each use is justified at the statement). -/
def trivialOps : RealOps :=
  { sqrtFn := fun x => x
    slerpRest := fun q _ _ => q
    getRPY := fun _ => (0, 0, 0)
    setRPY := fun _ => idQuat }

/-- A stand-in for map.h's `Fiducial()` default constructor (map.h is not
among the sources; no settled statement depends on this value — it is only
ever passed where the source's `operator[]` default insertion cannot
trigger). -/
def defaultFiducial : Fiducial :=
  { id := 0, pose := idTf, variance := 0, numObs := 0, links := [] }

/-- An observation with identity transforms, fixed fid and object error. -/
def obsOf (fid : Int) (oe : ℚ) : Observation :=
  { fid := fid, T_fidCam := idTf, T_camFid := idTf, imageError := 0
    objectError := oe }

/-- An observation whose camera-relative translation is `v` (used where the
squared translation magnitude matters). -/
def obsAt (fid : Int) (v : V3) (oe : ℚ) : Observation :=
  { fid := fid, T_fidCam := ⟨idQuat, v⟩, T_camFid := ⟨idQuat, v⟩
    imageError := 0, objectError := oe }

/-- The link relation of the collection is symmetric and closed: every link
target exists in the collection and carries the back link.  This is the
invariant `updateMap` preserves (spec section 8, "Link symmetry"); it
directly yields `a ∈ links(b) ↔ b ∈ links(a)` for present pairs. -/
def LinkSymClosed (m : Fids) : Prop :=
  ∀ a fa, fidsFind m a = some fa → ∀ b ∈ fa.links,
    ∃ fb, fidsFind m b = some fb ∧ a ∈ fb.links

/-- Landmark `k` is present with pose `P0` and variance `0` (anchored, per
the spec's sentinel). -/
def AnchoredAt (m : Fids) (k : Int) (P0 : Tf) : Prop :=
  ∃ g, fidsFind m k = some g ∧ g.pose = P0 ∧ g.variance = 0

/-- All numeric `%lf` fields `saveMap` prints for this fiducial are exactly
representable at six decimal places, so `fmt6` leaves them unchanged. -/
def SavesExactly (R : RealOps) (f : Fiducial) : Prop :=
  fmt6 f.pose.origin.x = f.pose.origin.x ∧
  fmt6 f.pose.origin.y = f.pose.origin.y ∧
  fmt6 f.pose.origin.z = f.pose.origin.z ∧
  fmt6 (rad2deg (R.getRPY f.pose.rot).1) = rad2deg (R.getRPY f.pose.rot).1 ∧
  fmt6 (rad2deg (R.getRPY f.pose.rot).2.1) =
    rad2deg (R.getRPY f.pose.rot).2.1 ∧
  fmt6 (rad2deg (R.getRPY f.pose.rot).2.2) =
    rad2deg (R.getRPY f.pose.rot).2.2 ∧
  fmt6 f.variance = f.variance

/-- A well-formed persisted entry: the key equals the fiducial's id (an
engine invariant), the link list is non-empty (otherwise `loadMap` drops the
line) and sorted (as the engine's `linkAdd` keeps it), the printed numeric
fields are six-decimal exact, and the roll/pitch/yaw extraction of this
pose's rotation is inverted by `setRPY` (true of the real tf2 conversions on
canonical angles). -/
def GoodEntry (R : RealOps) (kf : Int × Fiducial) : Prop :=
  kf.1 = kf.2.id ∧ kf.2.links ≠ [] ∧
  List.Pairwise (fun a b => a < b) kf.2.links ∧
  SavesExactly R kf.2 ∧ R.setRPY (R.getRPY kf.2.pose.rot) = kf.2.pose.rot

/-- A reference landmark with variance `5e-5`, between the spec's claimed
floor `1e-5` and the code's floor `10e-5 = 1e-4`. -/
def fidC3 : Fiducial := Fiducial.make 1 idTf (5 / 100000)

/-- A tracking map with an anchored landmark `5` (variance `0`) and a
landmark `6` with variance `1`, at distinct poses. -/
def fidsC6 : Fids :=
  [(5, Fiducial.make 5 ⟨idQuat, ⟨1, 0, 0⟩⟩ 0),
   (6, Fiducial.make 6 ⟨idQuat, ⟨2, 0, 0⟩⟩ 1)]

/-- A frame observing landmarks `5` and `6`, both with object error `0`. -/
def obsC6 : List Observation := [obsOf 5 0, obsOf 6 0]

/-- A one-landmark map with positive variance, for instantiating the
sequential-fusion statement. -/
def fidsC6w : Fids := [(5, Fiducial.make 5 idTf (1 / 2))]

/-- A landmark with a non-empty link list and six-decimal-exact fields, for
instantiating the persistence round trip. -/
def fidC7 : Fiducial :=
  { id := 1, pose := ⟨idQuat, ⟨1 / 2, 0, 0⟩⟩, variance := 1 / 10
    numObs := 3, links := [2] }

end FidSlam

namespace FidSlam

theorem fidsFind_set_self (m : Fids) (k : Int) (f : Fiducial) :
    fidsFind (fidsSet m k f) k = some f := by
  induction m with
  | nil => simp [fidsSet, fidsFind]
  | cons a rest ih =>
    obtain ⟨k', f'⟩ := a
    by_cases h1 : k < k'
    · simp [fidsSet, fidsFind, h1]
    · by_cases h2 : k = k'
      · simp [fidsSet, fidsFind, h1, h2]
      · simp [fidsSet, fidsFind, h1, h2, ih]

theorem fidsFind_set_ne (m : Fids) (k k' : Int) (f : Fiducial)
    (h : k' ≠ k) : fidsFind (fidsSet m k f) k' = fidsFind m k' := by
  induction m with
  | nil => simp [fidsSet, fidsFind, h]
  | cons a rest ih =>
    obtain ⟨ka, fa⟩ := a
    by_cases h1 : k < ka
    · simp [fidsSet, fidsFind, h1, h]
    · by_cases h2 : k = ka
      · subst h2; simp [fidsSet, fidsFind, h1, h]
      · simp [fidsSet, fidsFind, h1, h2, ih]

theorem fidsFind_ne_nil {m : Fids} {k : Int} {f : Fiducial}
    (h : fidsFind m k = some f) : m ≠ [] := by
  cases m with
  | nil => simp [fidsFind] at h
  | cons a rest => simp

theorem mem_linkAdd {l : List Int} {k b : Int} :
    b ∈ linkAdd l k ↔ b = k ∨ b ∈ l := by
  induction l with
  | nil => simp [linkAdd]
  | cons a rest ih =>
    by_cases h1 : k < a
    · simp [linkAdd, h1]
    · by_cases h2 : k = a
      · subst h2; simp [linkAdd, h1]
      · simp [linkAdd, h1, h2, ih]; tauto

theorem foldlInv {α β : Type} {P : α → Prop} (step : α → β → α)
    (h : ∀ s b, P s → P (step s b)) :
    ∀ (l : List β) (s : α), P s → P (l.foldl step s) := by
  intro l
  induction l with
  | nil => intro s hs; simpa using hs
  | cons b t ih => intro s hs; simpa using ih (step s b) (h s b hs)

theorem updateVarianceAlexey_pos (v1 v2 : ℚ) :
    0 < updateVarianceAlexey v1 v2 :=
  lt_of_lt_of_le (by norm_num) (le_max_right _ _)

end FidSlam

namespace FidSlam

set_option maxHeartbeats 1000000 in
/-- C1: the claim says the bootstrap origin is the observation of minimum
squared camera-relative translation magnitude.  The code disagrees:
`findClosestObs`'s loop body reads `obs[0]` instead of `obs[i]`, so with a
first observation of squared magnitude `4` and a second of squared magnitude
`1` it still returns index `0`, and `autoInit` inserts the first
observation's fiducial (id `1`) as origin while the nearer fiducial (id `2`)
is not inserted. -/
theorem c1CodeSelectsFirst :
    findClosestObs [obsAt 1 ⟨2, 0, 0⟩ (1 / 100), obsAt 2 ⟨1, 0, 0⟩ (1 / 100)]
        = 0 ∧
    vlen2 (obsAt 2 ⟨1, 0, 0⟩ (1 / 100)).T_camFid.origin <
      vlen2 (obsAt 1 ⟨2, 0, 0⟩ (1 / 100)).T_camFid.origin ∧
    (autoInit trivialOps defaultFiducial ⟨1, true, -1, []⟩
        [obsAt 1 ⟨2, 0, 0⟩ (1 / 100), obsAt 2 ⟨1, 0, 0⟩ (1 / 100)]).map
      (fun st => ((fidsFind st.fiducials 1).isSome,
        (fidsFind st.fiducials 2).isSome)) = some (true, false) := by
  have hr : List.range 2 = [0, 1] := rfl
  norm_num [findClosestObs, autoInit, obsAt, vlen2, fidsFind, fidsSet,
    listGetI, Fiducial.make, idQuat, idTf, hr, List.foldl]

set_option maxHeartbeats 4000000 in
/-- C2: the claim says any bootstrap frame with `frameNumber > 10` both
anchors the origin (variance forced to `0`) and switches to tracking.  The
code disagrees on anchoring: over eleven frames each observing only
fiducial `5` (object error `0.01`), frame 11 (frameNum `11 > 10`) does clear
`isInitializingMap`, but fiducial `5` keeps variance `0.01`, because the
anchor guard compares `obs[0].fid` (`5`) against `originFid`, which holds
`findClosestObs`'s return value — an index (`0`), not a fiducial id. -/
theorem c2AnchorNeverFires :
    (runFrames trivialOps defaultFiducial initMap
        (List.replicate 11 [obsOf 5 (1 / 100)])).map
      (fun st => (st.isInitializingMap,
        (fidsFind st.fiducials 5).map Fiducial.variance))
      = some (false, some (1 / 100)) ∧ (1 : ℚ) / 100 ≠ 0 := by
  have hr : List.range 1 = [0] := rfl
  norm_num [runFrames, Map.update, autoInit, initMap, findClosestObs,
    listGetI, obsOf, fidsFind, fidsSet, Fiducial.make, Fiducial.update,
    updateTransform, updateVarianceDavid, updateVarianceAlexey, qslerp,
    qnormalize, qscale, qdot, qlen2, vadd, vsmul, vdiv, idTf, idQuat,
    trivialOps, defaultFiducial, hr, List.replicate, List.foldl, max_def]

/-- C5: the claim says a tracking frame with no observation of a mapped
landmark produces no observer estimate.  The code disagrees: `updatePose`
returns early only on an empty observation set; otherwise it unconditionally
broadcasts the local `(pose, variance)` — here the never-assigned,
default-constructed (uninitialized) `pose` and variance `0.0` — even though
no observation matched the map (fiducial `7` is unmapped). -/
theorem c5CodeEmitsEstimate (R : RealOps) (uninit : Tf) :
    updatePose R uninit [(1, Fiducial.make 1 idTf (1 / 2))] [obsOf 7 0]
      = some (uninit, 0) := rfl

/-- C9: the claim says the bootstrap step on an empty map and empty
observation set is safe and state-preserving.  The code disagrees:
`findClosestObs` returns `-1`, `autoInit` logs the warning but does not
return, and then binds `obs[originFid] = obs[-1]` — an out-of-range access
(undefined behaviour), modelled as `none`. -/
theorem c9OutOfRange (R : RealOps) (dflt : Fiducial) :
    autoInit R dflt ⟨1, true, -1, []⟩ [] = none ∧
    findClosestObs [] = -1 :=
  ⟨rfl, rfl⟩

set_option maxHeartbeats 1000000 in
/-- C3 counterexample: the claim floors landmark 1's variance contribution
at `1e-5`; the source constant is `10e-5 = 1e-4`.  With
`landmark1.variance = 5e-5` and both object errors `0`, the inserted
landmark 2 gets variance `1e-4`, not `0 + 0 + max(5e-5, 1e-5) = 5e-5`. -/
theorem c3Counterexample :
    (fidsFind (updateMap trivialOps defaultFiducial [(1, fidC3)]
        [obsOf 1 0, obsOf 2 0]) 2).map Fiducial.variance = some (1 / 10000) ∧
    (1 / 10000 : ℚ) ≠ (obsOf 1 0).objectError + (obsOf 2 0).objectError +
      max fidC3.variance (1 / 100000) := by
  constructor
  · norm_num [updateMap, updateMapPair, fidsFind, fidsSet, fidC3, obsOf,
      Fiducial.make, Fiducial.update, updateTransform, updateVarianceDavid,
      updateVarianceAlexey, Tf.mul, qmul, qrotate, qconj, vadd, vsmul, vdiv,
      qslerp, qnormalize, qscale, qdot, qlen2, vlen2, idTf, idQuat,
      trivialOps, defaultFiducial, linkAdd, List.foldl, max_def]
  · norm_num [obsOf, fidC3, Fiducial.make, max_def]

set_option maxHeartbeats 1000000 in
/-- C4 counterexample: the claim says links are recorded in both the insert
and the fuse outcome.  In the code the insert branch records no links: with
an anchored landmark `1` and a frame observing `1` and the new landmark `2`,
the pair `(1, 2)` is processed and inserts `2` (so it was not skipped), yet
afterwards `2 ∉ links(1)` and `1 ∉ links(2)` — both link sets are empty
(the reverse pair `(2, 1)` is skipped by the anchor guard). -/
theorem c4Counterexample :
    (updateMap trivialOps defaultFiducial [(1, Fiducial.make 1 idTf 0)]
        [obsOf 1 0, obsOf 2 0]).map (fun kf => (kf.1, kf.2.links))
      = [(1, []), (2, [])] := by
  have hnone : ((none : Option ℚ) = some 0) = False := by simp
  norm_num [updateMap, updateMapPair, fidsFind, fidsSet, obsOf,
    Fiducial.make, Tf.mul, qmul, qrotate, qconj, vadd, vsmul, vdiv, qdot,
    qlen2, idTf, idQuat, max_def, hnone, List.foldl]

set_option maxHeartbeats 1000000 in
/-- C6 counterexample: the claim says the estimate always equals sequential
pairwise fusion seeded from the first candidate.  The code tests
`variance == 0.0` to detect the unseeded accumulator, so when the first
candidate has variance `0` (anchored landmark `5`, object error `0`) the
second candidate replaces the accumulator instead of being fused: the code's
estimate sits at landmark 6's pose (`x = 2`) while the specified fusion
(full weight on the zero-variance candidate) stays at landmark 5's pose
(`x = 1`).  The divergence is in the translation blend alone, so it does not
depend on the parametric slerp/sqrt interpretation. -/
theorem c6Counterexample :
    (updatePose trivialOps idTf fidsC6 obsC6).map (fun e => e.1.origin)
        = some ⟨2, 0, 0⟩ ∧
    (specSeqFusion trivialOps (poseCandidates fidsC6 obsC6)).map
        (fun e => e.1.origin) = some ⟨1, 0, 0⟩ := by
  norm_num [updatePose, poseStep, specSeqFusion, poseCandidates, fuseStep,
    fidsC6, obsC6, obsOf, fidsFind, Fiducial.make, Tf.mul, qmul, qrotate,
    qconj, vadd, vsmul, vdiv, qdot, qlen2, qslerp, qnormalize, qscale,
    updateTransform, updateVarianceAlexey, idTf, idQuat, trivialOps,
    List.foldl, List.filterMap, max_def]

/-- C7 counterexample: the claim says the save/load round trip reproduces
every landmark, including those with an empty link set.  The code disagrees:
for a landmark with no links, the saved line ends right after `numObs`, the
whitespace directive before `%[^\t\n]` consumes the trailing newline,
`sscanf` matches only 9 of 10 fields, and `loadMap` silently drops the line
— loading the saved one-landmark map yields an empty map. -/
theorem c7Counterexample :
    loadMap trivialOps
      (saveMap trivialOps [(1, Fiducial.make 1 idTf (1 / 10))]) [] = [] := by
  norm_num [loadMap, saveMap, saveRec, loadRec, Fiducial.make, List.foldl]

set_option maxHeartbeats 2000000 in
/-- C8 counterexample: the claim says a landmark with variance `0` is never
changed by any later map-update or fusion.  Reachable refutation: frame 1
bootstraps from an observation of fiducial `0` with object error `0`, so the
origin is inserted with variance exactly `0`; in frame 2 (still
initializing, and `obs[0].fid = 0 = originFid`) `autoInit` fuses the origin
via `Fiducial::update`, and its variance becomes `1/2` — a subsequent
fusion changed a zero-variance landmark.  (In IEEE arithmetic the harmonic
combination with a zero variance gives the `1e-6` floor instead of `1/2`;
either way the variance leaves `0`, which is what refutes the claim.) -/
theorem c8Counterexample :
    (runFrames trivialOps defaultFiducial initMap [[obsOf 0 0]]).map
      (fun st => (fidsFind st.fiducials 0).map Fiducial.variance)
        = some (some 0) ∧
    (runFrames trivialOps defaultFiducial initMap
        [[obsOf 0 0], [obsOf 0 (1 / 2)]]).map
      (fun st => (fidsFind st.fiducials 0).map Fiducial.variance)
        = some (some (1 / 2)) ∧
    (1 : ℚ) / 2 ≠ 0 := by
  have hr : List.range 1 = [0] := rfl
  norm_num [runFrames, Map.update, autoInit, initMap, findClosestObs,
    listGetI, obsOf, fidsFind, fidsSet, Fiducial.make, Fiducial.update,
    updateTransform, updateVarianceDavid, updateVarianceAlexey, qslerp,
    qnormalize, qscale, qdot, qlen2, vadd, vsmul, vdiv, idTf, idQuat,
    trivialOps, defaultFiducial, hr, List.foldl, max_def]

/-- C10 counterexample: the claim says fusing `(P, v)` with itself yields
variance exactly `v / 2` for every `v > 0`.  The harmonic combination is
floored at `1e-6`, so at `v = 1e-6` the pose is reproduced but the combined
variance is `1e-6`, not `v / 2 = 5e-7`. -/
theorem c10Counterexample :
    (0 : ℚ) < 1 / 1000000 ∧
    updateTransform trivialOps ⟨idQuat, ⟨3, 4, 5⟩⟩ (1 / 1000000)
        ⟨idQuat, ⟨3, 4, 5⟩⟩ (1 / 1000000) = ⟨idQuat, ⟨3, 4, 5⟩⟩ ∧
    updateVarianceAlexey (1 / 1000000) (1 / 1000000) = 1 / 1000000 ∧
    (1 / 1000000 : ℚ) ≠ (1 / 1000000) / 2 := by
  norm_num [updateTransform, updateVarianceAlexey, qslerp, qnormalize,
    qscale, qdot, qlen2, vadd, vsmul, vdiv, idQuat, trivialOps, max_def]

end FidSlam

namespace FidSlam

theorem updateMapPair_same (R : RealOps) (dflt : Fiducial) {st : Fids}
    {o1 o2 : Observation} (h : o1.fid = o2.fid) :
    updateMapPair R dflt st o1 o2 = st := by
  simp [updateMapPair, h]

theorem updateMapPair_noSrc (R : RealOps) (dflt : Fiducial) {st : Fids}
    {o1 o2 : Observation} (hne : o1.fid ≠ o2.fid)
    (h1 : fidsFind st o1.fid = none) :
    updateMapPair R dflt st o1 o2 = st := by
  simp [updateMapPair, hne, h1]

theorem updateMapPair_anchored (R : RealOps) (dflt : Fiducial) {st : Fids}
    {o1 o2 : Observation} {f1 f2 : Fiducial} (hne : o1.fid ≠ o2.fid)
    (h1 : fidsFind st o1.fid = some f1) (h2 : fidsFind st o2.fid = some f2)
    (hv : f2.variance = 0) :
    updateMapPair R dflt st o1 o2 = st := by
  simp [updateMapPair, hne, h1, h2, hv]

theorem updateMapPair_insert (R : RealOps) (dflt : Fiducial) {st : Fids}
    {o1 o2 : Observation} {f1 : Fiducial} (hne : o1.fid ≠ o2.fid)
    (h1 : fidsFind st o1.fid = some f1) (h2 : fidsFind st o2.fid = none) :
    updateMapPair R dflt st o1 o2 =
      fidsSet st o2.fid (Fiducial.make o2.fid
        (Tf.mul f1.pose (Tf.mul o1.T_fidCam o2.T_camFid))
        (o1.objectError + o2.objectError + max f1.variance (10 / 100000))) := by
  simp [updateMapPair, hne, h1, h2]

theorem updateMapPair_fuse (R : RealOps) (dflt : Fiducial) {st : Fids}
    {o1 o2 : Observation} {f1 f2 : Fiducial} (hne : o1.fid ≠ o2.fid)
    (h1 : fidsFind st o1.fid = some f1) (h2 : fidsFind st o2.fid = some f2)
    (hv : f2.variance ≠ 0) :
    updateMapPair R dflt st o1 o2 =
      fidsSet (fidsSet st o2.fid (fuseTarget R f1 f2 o1 o2)) o1.fid
        { f1 with links := linkAdd f1.links o2.fid } := by
  simp [updateMapPair, hne, h1, h2, hv, fuseTarget,
    fidsFind_set_ne st o2.fid o1.fid _ hne]

end FidSlam

namespace FidSlam

/-- C10 (amended): fusing `(P, v)` with itself, for `v > 0` and a unit
rotation, reproduces the pose `P` exactly, and the combined variance is
`max(v / 2, 1e-6)` — equal to the claimed `v / 2` exactly when
`v ≥ 2e-6`.  The rotation passes through `slerp`'s zero-angle branch and
`normalize`, which only needs `sqrt 1 = 1` of the parametric square
root. -/
theorem c10EqualFusion (R : RealOps) (P : Tf) (v : ℚ) (hv : 0 < v)
    (hunit : qlen2 P.rot = 1) (hsq : R.sqrtFn 1 = 1) :
    updateTransform R P v P v = P ∧
    updateVarianceAlexey v v = max (v / 2) (1 / 1000000) := by
  have hv0 : v ≠ 0 := ne_of_gt hv
  constructor
  · have hcond : qdot P.rot P.rot * qdot P.rot P.rot =
        qlen2 P.rot * qlen2 P.rot := rfl
    have hrot : qnormalize R (qslerp R P.rot P.rot (v / (v + v))) = P.rot := by
      rw [qslerp, if_pos hcond, qnormalize, hunit, hsq]
      cases P.rot with
      | mk x y z w => simp [qscale]
    have horig : vdiv (vadd (vsmul v P.origin) (vsmul v P.origin)) (v + v)
        = P.origin := by
      cases P.origin with
      | mk x y z =>
        simp only [vadd, vsmul, vdiv, V3.mk.injEq]
        refine ⟨?_, ?_, ?_⟩ <;> (field_simp; ring)
    cases P with
    | mk rot origin =>
      simp only [updateTransform, Tf.mk.injEq]
      exact ⟨hrot, horig⟩
  · have hsum : 1 / v + 1 / v = 2 / v := by
      rw [div_add_div_same]; norm_num
    rw [updateVarianceAlexey, hsum, one_div_div]

/-- Witness for `c10EqualFusion` at `P = idTf`, `v = 1` and the concrete
interpretation `trivialOps` of the parametric primitives. -/
theorem c10EqualFusionWitness :
    updateTransform trivialOps idTf 1 idTf 1 = idTf ∧
    updateVarianceAlexey 1 1 = max ((1 : ℚ) / 2) (1 / 1000000) :=
  c10EqualFusion trivialOps idTf 1 (by norm_num)
    (by norm_num [qlen2, qdot, idTf, idQuat]) rfl

/-- C3 (amended): for every non-skipped pair, the candidate variance used
for inserting or fusing landmark 2 is
`o1.objectError + o2.objectError + max(landmark1.variance, 1e-4)` — the
floor constant in the source is `10e-5 = 1e-4`, not the claimed `1e-5`.
Stated through `updateMap` on a frame observing the mapped `o1.fid` and the
unmapped `o2.fid`: the inserted landmark's variance carries exactly that
value (the reverse pair `(o2, o1)` may fuse landmark 1 but never touches
landmark 2's variance). -/
theorem c3FloorAmended (R : RealOps) (dflt f1 : Fiducial)
    (o1 o2 : Observation) (hne : o1.fid ≠ o2.fid) :
    ∃ f2, fidsFind (updateMap R dflt [(o1.fid, f1)] [o1, o2]) o2.fid
        = some f2 ∧
      f2.variance = o1.objectError + o2.objectError +
        max f1.variance (1 / 10000) := by
  have hne2 : o2.fid ≠ o1.fid := Ne.symm hne
  have hfloor : (10 : ℚ) / 100000 = 1 / 10000 := by norm_num
  set m0 : Fids := [(o1.fid, f1)] with hm0
  have hf1 : fidsFind m0 o1.fid = some f1 := by simp [hm0, fidsFind]
  have hf2 : fidsFind m0 o2.fid = none := by simp [hm0, fidsFind, hne2]
  have hstep : updateMap R dflt m0 [o1, o2] =
      updateMapPair R dflt (updateMapPair R dflt m0 o1 o2) o2 o1 := by
    simp only [updateMap, List.foldl_cons, List.foldl_nil, updateMapPair_same]
  set F2 : Fiducial := Fiducial.make o2.fid
    (Tf.mul f1.pose (Tf.mul o1.T_fidCam o2.T_camFid))
    (o1.objectError + o2.objectError + max f1.variance (10 / 100000))
    with hF2def
  have h12 : updateMapPair R dflt m0 o1 o2 = fidsSet m0 o2.fid F2 :=
    updateMapPair_insert R dflt hne hf1 hf2
  set m1 : Fids := fidsSet m0 o2.fid F2 with hm1
  have hfind2 : fidsFind m1 o2.fid = some F2 := fidsFind_set_self m0 o2.fid F2
  have hfind1 : fidsFind m1 o1.fid = some f1 := by
    rw [hm1, fidsFind_set_ne m0 o2.fid o1.fid F2 hne]
    exact hf1
  have hvarF2 : F2.variance = o1.objectError + o2.objectError +
      max f1.variance (1 / 10000) := by
    rw [hF2def]
    simp [Fiducial.make, hfloor]
  rw [hstep, h12]
  by_cases hv : f1.variance = 0
  · rw [updateMapPair_anchored R dflt hne2 hfind2 hfind1 hv]
    exact ⟨F2, hfind2, hvarF2⟩
  · rw [updateMapPair_fuse R dflt hne2 hfind2 hfind1 hv]
    refine ⟨{ F2 with links := linkAdd F2.links o1.fid }, ?_, hvarF2⟩
    exact fidsFind_set_self _ o2.fid _

/-- Witness for `c3FloorAmended`: landmark 1 with variance `5e-5` observed
with a new landmark `2`, both object errors `0`. -/
theorem c3FloorWitness :
    ∃ f2, fidsFind (updateMap trivialOps defaultFiducial
        [((obsOf 1 0).fid, fidC3)] [obsOf 1 0, obsOf 2 0]) (obsOf 2 0).fid
        = some f2 ∧
      f2.variance = (obsOf 1 0).objectError + (obsOf 2 0).objectError +
        max fidC3.variance (1 / 10000) :=
  c3FloorAmended trivialOps defaultFiducial fidC3 (obsOf 1 0) (obsOf 2 0)
    (by norm_num [obsOf])

end FidSlam

namespace FidSlam

theorem linkSymClosed_insert {m : Fids} (h : LinkSymClosed m) {k : Int}
    (hk : fidsFind m k = none) {f : Fiducial} (hf : f.links = []) :
    LinkSymClosed (fidsSet m k f) := by
  intro a fa hfa b hb
  by_cases hak : a = k
  · rw [hak, fidsFind_set_self] at hfa
    rw [← Option.some.inj hfa, hf] at hb
    simp at hb
  · rw [fidsFind_set_ne m k a f hak] at hfa
    obtain ⟨fb0, hfb0, hmem⟩ := h a fa hfa b hb
    have hbk : b ≠ k := by
      rintro rfl
      rw [hfb0] at hk
      exact Option.noConfusion hk
    exact ⟨fb0, by rw [fidsFind_set_ne m k b f hbk]; exact hfb0, hmem⟩

theorem linkSymClosed_fuse {m : Fids} (h : LinkSymClosed m) {k1 k2 : Int}
    (hne : k1 ≠ k2) {f1 f2 g1 g2 : Fiducial}
    (h1 : fidsFind m k1 = some f1) (h2 : fidsFind m k2 = some f2)
    (hg1 : g1.links = linkAdd f1.links k2)
    (hg2 : g2.links = linkAdd f2.links k1) :
    LinkSymClosed (fidsSet (fidsSet m k2 g2) k1 g1) := by
  have hfind : ∀ x, fidsFind (fidsSet (fidsSet m k2 g2) k1 g1) x =
      if x = k1 then some g1
      else if x = k2 then some g2
      else fidsFind m x := by
    intro x
    by_cases hx1 : x = k1
    · rw [if_pos hx1, hx1, fidsFind_set_self]
    · rw [if_neg hx1, fidsFind_set_ne _ k1 x g1 hx1]
      by_cases hx2 : x = k2
      · rw [if_pos hx2, hx2, fidsFind_set_self]
      · rw [if_neg hx2, fidsFind_set_ne _ k2 x g2 hx2]
  intro a fa hfa b hb
  rw [hfind a] at hfa
  split_ifs at hfa with ha1 ha2
  · rw [← Option.some.inj hfa, hg1, mem_linkAdd] at hb
    rcases hb with hbk2 | hbl
    · refine ⟨g2, ?_, ?_⟩
      · rw [hbk2, hfind]; simp [Ne.symm hne]
      · rw [ha1, hg2, mem_linkAdd]; exact Or.inl rfl
    · obtain ⟨fb0, hfb0, hmem⟩ := h k1 f1 h1 b hbl
      by_cases hb1 : b = k1
      · refine ⟨g1, ?_, ?_⟩
        · rw [hb1, hfind]; simp
        · rw [ha1, hg1, mem_linkAdd]; exact Or.inr (hb1 ▸ hbl)
      · by_cases hb2 : b = k2
        · refine ⟨g2, ?_, ?_⟩
          · rw [hb2, hfind]; simp [Ne.symm hne]
          · rw [ha1, hg2, mem_linkAdd]; exact Or.inl rfl
        · refine ⟨fb0, ?_, ?_⟩
          · rw [hfind]; simp [hb1, hb2, hfb0]
          · rw [ha1]; exact hmem
  · rw [← Option.some.inj hfa, hg2, mem_linkAdd] at hb
    rcases hb with hbk1 | hbl
    · refine ⟨g1, ?_, ?_⟩
      · rw [hbk1, hfind]; simp
      · rw [ha2, hg1, mem_linkAdd]; exact Or.inl rfl
    · obtain ⟨fb0, hfb0, hmem⟩ := h k2 f2 h2 b hbl
      by_cases hb1 : b = k1
      · refine ⟨g1, ?_, ?_⟩
        · rw [hb1, hfind]; simp
        · rw [ha2, hg1, mem_linkAdd]; exact Or.inl rfl
      · by_cases hb2 : b = k2
        · refine ⟨g2, ?_, ?_⟩
          · rw [hb2, hfind]; simp [Ne.symm hne]
          · rw [ha2, hg2, mem_linkAdd]; exact Or.inr (hb2 ▸ hbl)
        · refine ⟨fb0, ?_, ?_⟩
          · rw [hfind]; simp [hb1, hb2, hfb0]
          · rw [ha2]; exact hmem
  · obtain ⟨fb0, hfb0, hmem⟩ := h a fa hfa b hb
    by_cases hb1 : b = k1
    · have hbf : fb0 = f1 := by
        rw [hb1] at hfb0
        exact Option.some.inj (hfb0.symm.trans h1)
      refine ⟨g1, ?_, ?_⟩
      · rw [hb1, hfind]; simp
      · rw [hg1, mem_linkAdd]; exact Or.inr (hbf ▸ hmem)
    · by_cases hb2 : b = k2
      · have hbf : fb0 = f2 := by
          rw [hb2] at hfb0
          exact Option.some.inj (hfb0.symm.trans h2)
        refine ⟨g2, ?_, ?_⟩
        · rw [hb2, hfind]; simp [Ne.symm hne]
        · rw [hg2, mem_linkAdd]; exact Or.inr (hbf ▸ hmem)
      · refine ⟨fb0, ?_, ?_⟩
        · rw [hfind]; simp [hb1, hb2, hfb0]
        · exact hmem

theorem linkSymClosed_updateMapPair (R : RealOps) (dflt : Fiducial)
    (o1 o2 : Observation) {m : Fids} (h : LinkSymClosed m) :
    LinkSymClosed (updateMapPair R dflt m o1 o2) := by
  by_cases hfid : o1.fid = o2.fid
  · rw [updateMapPair_same R dflt hfid]; exact h
  · rcases h1 : fidsFind m o1.fid with _ | f1
    · rw [updateMapPair_noSrc R dflt hfid h1]; exact h
    · rcases h2 : fidsFind m o2.fid with _ | f2
      · rw [updateMapPair_insert R dflt hfid h1 h2]
        exact linkSymClosed_insert h h2 rfl
      · by_cases hv : f2.variance = 0
        · rw [updateMapPair_anchored R dflt hfid h1 h2 hv]; exact h
        · rw [updateMapPair_fuse R dflt hfid h1 h2 hv]
          exact linkSymClosed_fuse h hfid h1 h2 rfl rfl

/-- C4 (amended): the relational update records links symmetrically only in
the fuse outcome; the insert outcome records none for that pair.  The link
relation nevertheless stays symmetric and closed across every `updateMap`
pass (link additions always come in back-to-back pairs between two present
landmarks), which gives `a ∈ links(b) ↔ b ∈ links(a)` for all present
pairs. -/
theorem c4LinkSymPreserved (R : RealOps) (dflt : Fiducial) (m : Fids)
    (obs : List Observation) (h : LinkSymClosed m) :
    LinkSymClosed (updateMap R dflt m obs) := by
  rw [updateMap]
  refine foldlInv _ (fun s o1 hs => ?_) obs m h
  exact foldlInv _
    (fun s2 o2 hs2 => linkSymClosed_updateMapPair R dflt o1 o2 hs2) obs s hs

/-- Witness for `c4LinkSymPreserved`: the empty collection is trivially
symmetric-and-closed, and stays so through a frame. -/
theorem c4LinkSymWitness :
    LinkSymClosed (updateMap trivialOps defaultFiducial [] [obsOf 1 0]) :=
  c4LinkSymPreserved trivialOps defaultFiducial [] [obsOf 1 0]
    (by intro a fa hfa b hb; simp [fidsFind] at hfa)

end FidSlam

namespace FidSlam

theorem poseCandidates_cons_none {fids : Fids} {o : Observation}
    (t : List Observation) (hf : fidsFind fids o.fid = none) :
    poseCandidates fids (o :: t) = poseCandidates fids t := by
  simp [poseCandidates, hf]

theorem poseCandidates_cons_some {fids : Fids} {o : Observation}
    {f : Fiducial} (t : List Observation)
    (hf : fidsFind fids o.fid = some f) :
    poseCandidates fids (o :: t) =
      (Tf.mul f.pose o.T_fidCam, f.variance + o.objectError) ::
        poseCandidates fids t := by
  simp [poseCandidates, hf]

theorem poseFoldTail (R : RealOps) (fids : Fids) :
    ∀ (obs : List Observation) (acc : Tf × ℚ), acc.2 ≠ 0 →
      obs.foldl (poseStep R fids) acc =
        (poseCandidates fids obs).foldl (fuseStep R) acc := by
  intro obs
  induction obs with
  | nil => intro acc _; rfl
  | cons o t ih =>
    intro acc hacc
    rw [List.foldl_cons]
    rcases hf : fidsFind fids o.fid with _ | f
    · have hstep : poseStep R fids acc o = acc := by simp [poseStep, hf]
      rw [hstep, poseCandidates_cons_none t hf]
      exact ih acc hacc
    · have hstep : poseStep R fids acc o = fuseStep R acc
          (Tf.mul f.pose o.T_fidCam, f.variance + o.objectError) := by
        simp [poseStep, hf, hacc, fuseStep]
      rw [hstep, poseCandidates_cons_some t hf, List.foldl_cons]
      exact ih _ (ne_of_gt (updateVarianceAlexey_pos _ _))

theorem poseFoldSeed (R : RealOps) (fids : Fids) :
    ∀ (obs : List Observation) (uninit : Tf) (c : Tf × ℚ)
      (rest : List (Tf × ℚ)),
      poseCandidates fids obs = c :: rest → c.2 ≠ 0 →
      obs.foldl (poseStep R fids) (uninit, 0) =
        rest.foldl (fuseStep R) c := by
  intro obs
  induction obs with
  | nil => intro uninit c rest hc _; simp [poseCandidates] at hc
  | cons o t ih =>
    intro uninit c rest hc hv
    rw [List.foldl_cons]
    rcases hf : fidsFind fids o.fid with _ | f
    · have hstep : poseStep R fids (uninit, 0) o = (uninit, 0) := by
        simp [poseStep, hf]
      rw [hstep]
      rw [poseCandidates_cons_none t hf] at hc
      exact ih uninit c rest hc hv
    · rw [poseCandidates_cons_some t hf, List.cons.injEq] at hc
      have hstep : poseStep R fids (uninit, 0) o =
          (Tf.mul f.pose o.T_fidCam, f.variance + o.objectError) := by
        simp [poseStep, hf]
      rw [hstep, hc.1, ← hc.2]
      exact poseFoldTail R fids t c hv

/-- C6 (amended): the observer estimate equals the spec's sequential
pairwise fusion over the candidate list, provided the first candidate's
variance is nonzero.  (The code detects the unseeded accumulator with
`variance == 0.0`, so a zero-variance first candidate — anchored landmark
plus zero object error — is overwritten by the next candidate instead of
fused; once the running variance is positive it stays positive, because the
harmonic combination is floored at `1e-6`, and every later candidate is
fused exactly as claimed.) -/
theorem c6SeqFusion (R : RealOps) (uninit : Tf) (fids : Fids)
    (obs : List Observation) (c : Tf × ℚ) (rest : List (Tf × ℚ))
    (hc : poseCandidates fids obs = c :: rest) (hv : c.2 ≠ 0) :
    updatePose R uninit fids obs =
      specSeqFusion R (poseCandidates fids obs) := by
  have hobs : ¬obs.length = 0 := by
    intro hlen
    rw [List.length_eq_zero] at hlen
    rw [hlen] at hc
    simp [poseCandidates] at hc
  have hspec : specSeqFusion R (c :: rest) =
      some (rest.foldl (fuseStep R) c) := rfl
  rw [updatePose, if_neg hobs, hc, hspec]
  exact congrArg some (poseFoldSeed R fids obs uninit c rest hc hv)

/-- Witness for `c6SeqFusion`: one mapped landmark with variance `1/2`
observed once. -/
theorem c6SeqFusionWitness :
    updatePose trivialOps idTf fidsC6w [obsOf 5 0] =
      specSeqFusion trivialOps (poseCandidates fidsC6w [obsOf 5 0]) :=
  c6SeqFusion trivialOps idTf fidsC6w [obsOf 5 0]
    (Tf.mul (Fiducial.make 5 idTf (1 / 2)).pose (obsOf 5 0).T_fidCam,
      (Fiducial.make 5 idTf (1 / 2)).variance + (obsOf 5 0).objectError) []
    (by simp [poseCandidates, fidsC6w, obsOf, fidsFind])
    (by norm_num [Fiducial.make, obsOf])

end FidSlam

namespace FidSlam

theorem mpi_pos : 0 < mpi := by norm_num [mpi]

theorem deg2rad_rad2deg (x : ℚ) : deg2rad (rad2deg x) = x := by
  have h : mpi ≠ 0 := ne_of_gt mpi_pos
  rw [rad2deg, deg2rad]
  field_simp

theorem linkAdd_append {l : List Int} {k : Int} (h : ∀ a ∈ l, a < k) :
    linkAdd l k = l ++ [k] := by
  induction l with
  | nil => rfl
  | cons a t ih =>
    have hak : a < k := h a (List.mem_cons_self a t)
    have h1 : ¬k < a := by omega
    have h2 : ¬k = a := by omega
    simp only [linkAdd, if_neg h1, if_neg h2, List.cons_append]
    rw [ih (fun b hb => h b (List.mem_cons_of_mem a hb))]

theorem foldl_linkAdd_sorted :
    ∀ (l acc : List Int),
      List.Pairwise (fun a b => a < b) (acc ++ l) →
      l.foldl linkAdd acc = acc ++ l := by
  intro l
  induction l with
  | nil => intro acc _; simp
  | cons k t ih =>
    intro acc hp
    have hlt : ∀ a ∈ acc, a < k := by
      intro a ha
      exact (List.pairwise_append.mp hp).2.2 a ha k (List.mem_cons_self k t)
    rw [List.foldl_cons, linkAdd_append hlt]
    have hp2 : List.Pairwise (fun a b => a < b) ((acc ++ [k]) ++ t) := by
      rw [List.append_assoc]
      simpa using hp
    rw [ih (acc ++ [k]) hp2, List.append_assoc]
    simp

theorem fidsSet_append {m : Fids} {k : Int} (f : Fiducial)
    (h : ∀ kf ∈ m, kf.1 < k) : fidsSet m k f = m ++ [(k, f)] := by
  induction m with
  | nil => rfl
  | cons a t ih =>
    obtain ⟨ka, fa⟩ := a
    have hak : ka < k := h (ka, fa) (List.mem_cons_self _ _)
    have h1 : ¬k < ka := by omega
    have h2 : ¬k = ka := by omega
    simp only [fidsSet, if_neg h1, if_neg h2, List.cons_append]
    rw [ih (fun b hb => h b (List.mem_cons_of_mem _ hb))]

theorem loadRec_saveRec (R : RealOps) (f : Fiducial)
    (hl : f.links ≠ []) (hlp : List.Pairwise (fun a b => a < b) f.links)
    (he : SavesExactly R f)
    (hr : R.setRPY (R.getRPY f.pose.rot) = f.pose.rot) :
    loadRec R (saveRec R f) = some f := by
  obtain ⟨he1, he2, he3, he4, he5, he6, he7⟩ := he
  obtain ⟨fid, pose, fvar, fobs, links⟩ := f
  obtain ⟨rot, origin⟩ := pose
  obtain ⟨ox, oy, oz⟩ := origin
  rcases hgr : R.getRPY rot with ⟨r1, r2, r3⟩
  dsimp only at he1 he2 he3 he7 hl hlp hr ⊢
  rw [hgr] at he4 he5 he6 hr
  dsimp only at he4 he5 he6
  have hlinks : links.foldl linkAdd [] = links := by
    have := foldl_linkAdd_sorted links [] (by simpa using hlp)
    simpa using this
  simp only [saveRec, loadRec, Fiducial.ofQuat, hgr]
  rw [if_neg hl]
  rw [he1, he2, he3, he4, he5, he6, he7, deg2rad_rad2deg, deg2rad_rad2deg,
    deg2rad_rad2deg, hr, hlinks]

theorem loadMap_saveMap_aux (R : RealOps) :
    ∀ (m acc : Fids),
      (∀ kf ∈ m, GoodEntry R kf) →
      List.Pairwise (fun a b => a.1 < b.1) (acc ++ m) →
      loadMap R (saveMap R m) acc = acc ++ m := by
  intro m
  induction m with
  | nil => intro acc _ _; simp [loadMap, saveMap]
  | cons kf t ih =>
    intro acc hg hp
    obtain ⟨k, f⟩ := kf
    obtain ⟨hid, hl, hlp, he, hr⟩ := hg (k, f) (List.mem_cons_self _ _)
    have hid2 : k = f.id := hid
    have hrec : loadRec R (saveRec R f) = some f :=
      loadRec_saveRec R f hl hlp he hr
    have hsave : saveMap R ((k, f) :: t) = saveRec R f :: saveMap R t := rfl
    have hstep : loadMap R (saveRec R f :: saveMap R t) acc =
        loadMap R (saveMap R t) (fidsSet acc (saveRec R f).id f) := by
      simp [loadMap, hrec]
    have hsid : (saveRec R f).id = f.id := rfl
    have hkeys : ∀ kf2 ∈ acc, kf2.1 < k := by
      intro kf2 hkf2
      exact (List.pairwise_append.mp hp).2.2 kf2 hkf2 (k, f)
        (List.mem_cons_self _ _)
    have hset : fidsSet acc f.id f = acc ++ [(k, f)] := by
      rw [← hid2]
      exact fidsSet_append f hkeys
    rw [hsave, hstep, hsid, hset]
    have hp2 : List.Pairwise (fun a b => a.1 < b.1) ((acc ++ [(k, f)]) ++ t) := by
      rw [List.append_assoc]
      simpa using hp
    rw [ih (acc ++ [(k, f)])
      (fun kf2 hkf2 => hg kf2 (List.mem_cons_of_mem _ hkf2)) hp2,
      List.append_assoc]
    simp

/-- C7 (amended): the save/load round trip reproduces the landmark
collection exactly for every collection whose landmarks all have a
non-empty, sorted link list, six-decimal-exact printed numeric fields, and a
rotation whose roll/pitch/yaw extraction is inverted by `setRPY` — id,
translation, rotation, variance, observation count and link set all come
back unchanged.  Landmarks with an empty link set are dropped by `loadMap`
(see the counterexample), and `%lf` fields that are not six-decimal exact
come back rounded. -/
theorem c7RoundTrip (R : RealOps) (m : Fids)
    (hg : ∀ kf ∈ m, GoodEntry R kf)
    (hp : List.Pairwise (fun a b => a.1 < b.1) m) :
    loadMap R (saveMap R m) [] = m := by
  have h := loadMap_saveMap_aux R m [] hg (by simpa using hp)
  simpa using h

/-- Witness for `c7RoundTrip`: one landmark with links `[2]`, translation
`(1/2, 0, 0)`, variance `1/10`, identity rotation, under the concrete
interpretation `trivialOps`. -/
theorem c7RoundTripWitness :
    loadMap trivialOps (saveMap trivialOps [(1, fidC7)]) [] = [(1, fidC7)] :=
  c7RoundTrip trivialOps [(1, fidC7)]
    (by
      intro kf hkf
      simp only [List.mem_singleton] at hkf
      subst hkf
      refine ⟨rfl, by simp [fidC7], by simp [fidC7], ?_, rfl⟩
      refine ⟨?_, ?_, ?_, ?_, ?_, ?_, ?_⟩ <;>
        norm_num [fmt6, fidC7, trivialOps, rad2deg, mpi, Rat.floor, idQuat,
          idTf])
    (by simp)

end FidSlam

namespace FidSlam

theorem update_tracking (R : RealOps) (dflt : Fiducial) {st : Map}
    (obs : List Observation) (hmode : st.isInitializingMap = false)
    (hne : ¬st.fiducials.length = 0) :
    Map.update R dflt st obs = some { st with
      frameNum := st.frameNum + 1
      fiducials := updateMap R dflt st.fiducials obs } := by
  simp [Map.update, hmode, hne]

theorem anchored_updateMapPair (R : RealOps) (dflt : Fiducial)
    (o1 o2 : Observation) {m : Fids} {k : Int} {P0 : Tf}
    (h : AnchoredAt m k P0) :
    AnchoredAt (updateMapPair R dflt m o1 o2) k P0 := by
  obtain ⟨g, hg, hgp, hgv⟩ := h
  by_cases hfid : o1.fid = o2.fid
  · rw [updateMapPair_same R dflt hfid]; exact ⟨g, hg, hgp, hgv⟩
  · rcases h1 : fidsFind m o1.fid with _ | f1
    · rw [updateMapPair_noSrc R dflt hfid h1]; exact ⟨g, hg, hgp, hgv⟩
    · rcases h2 : fidsFind m o2.fid with _ | f2
      · rw [updateMapPair_insert R dflt hfid h1 h2]
        have hk2 : k ≠ o2.fid := by
          rintro rfl
          rw [hg] at h2
          exact Option.noConfusion h2
        exact ⟨g, by rw [fidsFind_set_ne m o2.fid k _ hk2]; exact hg,
          hgp, hgv⟩
      · by_cases hv : f2.variance = 0
        · rw [updateMapPair_anchored R dflt hfid h1 h2 hv]
          exact ⟨g, hg, hgp, hgv⟩
        · rw [updateMapPair_fuse R dflt hfid h1 h2 hv]
          have hk2 : k ≠ o2.fid := by
            rintro rfl
            have hgf2 : g = f2 := Option.some.inj (hg.symm.trans h2)
            exact hv (hgf2 ▸ hgv)
          by_cases hk1 : k = o1.fid
          · have hf1g : f1 = g := by
              rw [← hk1] at h1
              exact Option.some.inj (h1.symm.trans hg)
            refine ⟨{ f1 with links := linkAdd f1.links o2.fid }, ?_, ?_, ?_⟩
            · rw [hk1, fidsFind_set_self]
            · show f1.pose = P0
              rw [hf1g]; exact hgp
            · show f1.variance = 0
              rw [hf1g]; exact hgv
          · refine ⟨g, ?_, hgp, hgv⟩
            rw [fidsFind_set_ne _ o1.fid k _ hk1,
              fidsFind_set_ne m o2.fid k _ hk2]
            exact hg

theorem anchored_update (R : RealOps) (dflt : Fiducial)
    (obs : List Observation) {st : Map} {k : Int} {P0 : Tf}
    (hmode : st.isInitializingMap = false)
    (h : AnchoredAt st.fiducials k P0) :
    ∃ st2, Map.update R dflt st obs = some st2 ∧
      st2.isInitializingMap = false ∧ AnchoredAt st2.fiducials k P0 := by
  obtain ⟨g, hg, hgp, hgv⟩ := h
  have hne : ¬st.fiducials.length = 0 := by
    intro h0
    rw [List.length_eq_zero.mp h0] at hg
    simp [fidsFind] at hg
  refine ⟨_, update_tracking R dflt obs hmode hne, hmode, ?_⟩
  show AnchoredAt (updateMap R dflt st.fiducials obs) k P0
  have hstart : AnchoredAt st.fiducials k P0 := ⟨g, hg, hgp, hgv⟩
  rw [updateMap]
  refine @foldlInv Fids Observation (fun s => AnchoredAt s k P0) _
    (fun s o1 hs => ?_) obs st.fiducials hstart
  exact @foldlInv Fids Observation (fun s2 => AnchoredAt s2 k P0) _
    (fun s2 o2 hs2 => anchored_updateMapPair R dflt o1 o2 hs2) obs s hs

theorem runFrames_cons_some (R : RealOps) (dflt : Fiducial) {st st1 : Map}
    {obs : List Observation} (rest : List (List Observation))
    (h : Map.update R dflt st obs = some st1) :
    runFrames R dflt st (obs :: rest) = runFrames R dflt st1 rest := by
  rw [runFrames, runFrames, List.foldl_cons]
  congr 1

theorem anchored_frames (R : RealOps) (dflt : Fiducial) :
    ∀ (frames : List (List Observation)) (st : Map) (k : Int) (P0 : Tf),
      st.isInitializingMap = false → AnchoredAt st.fiducials k P0 →
      ∃ st2, runFrames R dflt st frames = some st2 ∧
        st2.isInitializingMap = false ∧ AnchoredAt st2.fiducials k P0 := by
  intro frames
  induction frames with
  | nil => intro st k P0 hm h; exact ⟨st, rfl, hm, h⟩
  | cons obs rest ih =>
    intro st k P0 hm h
    obtain ⟨st1, hstep, hm1, h1⟩ := anchored_update R dflt obs hm h
    obtain ⟨st2, hrun, hm2, h2⟩ := ih st1 k P0 hm1 h1
    exact ⟨st2, (runFrames_cons_some R dflt rest hstep).trans hrun, hm2, h2⟩

/-- C8 (amended): once the engine is in tracking mode
(`isInitializingMap = false`), a landmark with variance `0` keeps exactly
its pose and variance through every later frame, whatever is observed: the
relational update skips it as a destination and only ever touches its link
set as a source, and tracking mode is never left while the collection is
non-empty.  (During bootstrap the invariant can fail: a zero-variance origin
— object error `0` — may still be fused by `autoInit`, see the
counterexample.) -/
theorem c8AnchorTracking (R : RealOps) (dflt : Fiducial) (st : Map)
    (k : Int) (f : Fiducial) (frames : List (List Observation))
    (hmode : st.isInitializingMap = false)
    (hf : fidsFind st.fiducials k = some f) (hv : f.variance = 0) :
    ∃ st2, runFrames R dflt st frames = some st2 ∧
      st2.isInitializingMap = false ∧
      AnchoredAt st2.fiducials k f.pose :=
  anchored_frames R dflt frames st k f.pose hmode ⟨f, hf, rfl, hv⟩

/-- Witness for `c8AnchorTracking`: a tracking-mode engine with anchored
landmark `3`, run for one frame observing `3` and a new landmark `4`. -/
theorem c8AnchorWitness :
    ∃ st2, runFrames trivialOps defaultFiducial
        ⟨0, false, -1, [(3, Fiducial.make 3 idTf 0)]⟩
        [[obsOf 3 0, obsOf 4 (1 / 50)]] = some st2 ∧
      st2.isInitializingMap = false ∧
      AnchoredAt st2.fiducials 3 (Fiducial.make 3 idTf 0).pose :=
  c8AnchorTracking trivialOps defaultFiducial
    ⟨0, false, -1, [(3, Fiducial.make 3 idTf 0)]⟩ 3 (Fiducial.make 3 idTf 0)
    [[obsOf 3 0, obsOf 4 (1 / 50)]] rfl (by simp [fidsFind]) rfl

end FidSlam
